import Mathlib

/-!
# Verification of the edgesearch wiki demo search hook

Shallow embedding of `src/demo/wiki/client/src/search/search.ts` (the
`useSearch` React hook).  The hook's pure pieces (tokenization, the
dedup/classification loop over resolved article summaries) are embedded as
Lean functions; the stateful debounce / generation-token protocol built on
`useState`, `useRef`, `useEffect`, `setTimeout` and the two network
suspension points is embedded as an explicit small-step transition system
over an event alphabet (query submission, timer fire, index-search
return/failure, summary fan-out return).
-/

namespace Edgesearch

/-! ## Tokenizer (search.ts line 33)

`query.split(/[^a-zA-Z0-9]+/).filter(t => t).map(t => t.toLowerCase())`.

`splitRuns` models `String.prototype.split` with the separator regex
`[^a-zA-Z0-9]+`: the string is cut at every maximal run of non-alphanumeric
characters, an empty fragment appearing at the start (resp. end) when the
string starts (resp. ends) with a separator run. -/

/-- Does `c` match the character class `[a-zA-Z0-9]`? -/
def isAlnum (c : Char) : Bool :=
  (97 ≤ c.toNat && c.toNat ≤ 122) ||
  (65 ≤ c.toNat && c.toNat ≤ 90) ||
  (48 ≤ c.toNat && c.toNat ≤ 57)

/-- JavaScript `toLowerCase`, restricted to the ASCII range; the hook only
applies it to fragments made of `[a-zA-Z0-9]` characters, on which the
ASCII table is the whole story. -/
def jsToLower (c : Char) : Char :=
  if 65 ≤ c.toNat ∧ c.toNat ≤ 90 then Char.ofNat (c.toNat + 32) else c

/-- `String.prototype.split` with separator regex `[^a-zA-Z0-9]+`:
fragments between maximal non-alphanumeric runs. -/
def splitRuns : List Char → List (List Char)
  | [] => [[]]
  | c :: cs =>
    match splitRuns cs with
    | [] => [[]]
    | frag :: frags =>
      if isAlnum c then (c :: frag) :: frags
      else
        match cs with
        | [] => [] :: frag :: frags
        | d :: _ => if isAlnum d then [] :: frag :: frags else frag :: frags

/-- The tokenizer of search.ts line 33: split on non-alphanumeric runs,
drop empty fragments (JS string truthiness), lowercase the survivors. -/
def tokenize (query : String) : List String :=
  (((splitRuns query.data).map String.mk).filter (fun t => !t.isEmpty)).map
    (fun t => String.mk (t.data.map jsToLower))

/-- Spec-side tokenizer, following the spec's words: the sequence of maximal
runs of `[A-Za-z0-9]` characters (every other fragment being discarded as
empty), each run lowercased. -/
def maximalAlnumRuns : List Char → List (List Char)
  | [] => []
  | c :: cs =>
    if isAlnum c then
      match cs with
      | [] => [[c]]
      | d :: _ =>
        if isAlnum d then
          match maximalAlnumRuns cs with
          | run :: runs => (c :: run) :: runs
          | [] => [[c]]
        else [c] :: maximalAlnumRuns cs
    else maximalAlnumRuns cs

/-- Spec-side tokenizer: lowercased maximal alphanumeric runs. -/
def tokenizeSpec (query : String) : List String :=
  (maximalAlnumRuns query.data).map (fun f => String.mk (f.map jsToLower))

example : tokenize ("Hello, World! 42") = [("hello"), ("world"), ("42")] := by decide
example : tokenize ("   ") = [] := by decide
example : tokenizeSpec ("Hello, World! 42") = [("hello"), ("world"), ("42")] := by decide

/-! ### Tokenizer lemmas: the split-then-filter pipeline computes exactly
the maximal alphanumeric runs. -/

theorem splitRuns_cons (c : Char) (cs : List Char) :
    splitRuns (c :: cs) =
      match splitRuns cs with
      | [] => [[]]
      | frag :: frags =>
        if isAlnum c then (c :: frag) :: frags
        else
          match cs with
          | [] => [] :: frag :: frags
          | d :: _ => if isAlnum d then [] :: frag :: frags else frag :: frags := rfl

theorem maximalAlnumRuns_cons (c : Char) (cs : List Char) :
    maximalAlnumRuns (c :: cs) =
      if isAlnum c then
        match cs with
        | [] => [[c]]
        | d :: _ =>
          if isAlnum d then
            match maximalAlnumRuns cs with
            | run :: runs => (c :: run) :: runs
            | [] => [[c]]
          else [c] :: maximalAlnumRuns cs
      else maximalAlnumRuns cs := rfl

theorem splitRuns_ne_nil (l : List Char) : splitRuns l ≠ [] := by
  cases l with
  | nil => simp [splitRuns]
  | cons c cs =>
    rw [splitRuns_cons]
    cases h : splitRuns cs with
    | nil => simp
    | cons frag frags =>
      by_cases hc : isAlnum c
      · simp [hc]
      · cases cs with
        | nil => simp [hc]
        | cons d cs' => by_cases hd : isAlnum d <;> simp [hc, hd]

theorem splitRuns_cons_alnum {d : Char} (hd : isAlnum d = true) (l : List Char) :
    ∃ f fs, splitRuns l = f :: fs ∧ splitRuns (d :: l) = (d :: f) :: fs := by
  cases h : splitRuns l with
  | nil => exact absurd h (splitRuns_ne_nil l)
  | cons f fs =>
    refine ⟨f, fs, rfl, ?_⟩
    rw [splitRuns_cons, h]
    simp [hd]

theorem splitRuns_sep_head :
    ∀ (l : List Char) {d : Char}, isAlnum d = false →
      ∃ fs, splitRuns (d :: l) = [] :: fs := by
  intro l
  induction l with
  | nil =>
    intro d hd
    refine ⟨[[]], ?_⟩
    rw [splitRuns_cons]
    simp [splitRuns, hd]
  | cons e l' ih =>
    intro d hd
    by_cases he : isAlnum e
    · obtain ⟨f, fs, h1, h2⟩ := splitRuns_cons_alnum he l'
      refine ⟨(e :: f) :: fs, ?_⟩
      rw [splitRuns_cons, h2]
      simp [hd, he]
    · obtain ⟨fs, h⟩ := ih (d := e) (by simpa using he)
      refine ⟨fs, ?_⟩
      have heq : splitRuns (d :: e :: l') = splitRuns (e :: l') := by
        rw [splitRuns_cons, h]
        simp [hd, he]
      rw [heq, h]

theorem splitRuns_sep_filter {c : Char} (hc : isAlnum c = false) (cs : List Char) :
    (splitRuns (c :: cs)).filter (fun f => !f.isEmpty) =
      (splitRuns cs).filter (fun f => !f.isEmpty) := by
  cases h : splitRuns cs with
  | nil => exact absurd h (splitRuns_ne_nil cs)
  | cons frag frags =>
    rw [splitRuns_cons, h]
    cases cs with
    | nil =>
      injection h with h1 h2
      subst h1
      subst h2
      simp [hc]
    | cons d cs' => by_cases hd : isAlnum d <;> simp [hc, hd]

/-- Splitting on maximal separator runs and then discarding the empty
fragments yields exactly the maximal alphanumeric runs. -/
theorem splitRuns_filter (l : List Char) :
    (splitRuns l).filter (fun f => !f.isEmpty) = maximalAlnumRuns l := by
  induction l with
  | nil => rfl
  | cons c cs ih =>
    by_cases hc : isAlnum c
    · cases cs with
      | nil =>
        rw [splitRuns_cons, maximalAlnumRuns_cons]
        simp [splitRuns, hc]
      | cons d cs' =>
        by_cases hd : isAlnum d
        · obtain ⟨f, fs, h1, h2⟩ := splitRuns_cons_alnum hd cs'
          have h3 : splitRuns (c :: d :: cs') = (c :: d :: f) :: fs := by
            rw [splitRuns_cons, h2]
            simp [hc]
          have hm : maximalAlnumRuns (d :: cs') =
              (d :: f) :: fs.filter (fun f => !f.isEmpty) := by
            rw [← ih, h2]
            simp
          rw [h3, maximalAlnumRuns_cons, hm]
          simp [hc, hd]
        · have hd' : isAlnum d = false := by simpa using hd
          obtain ⟨fs, h⟩ := splitRuns_sep_head cs' hd'
          have h3 : splitRuns (c :: d :: cs') = [c] :: fs := by
            rw [splitRuns_cons, h]
            simp [hc]
          have hm : maximalAlnumRuns (d :: cs') = fs.filter (fun f => !f.isEmpty) := by
            rw [← ih, h]
            simp
          rw [h3, maximalAlnumRuns_cons, hm]
          simp [hc, hd]
    · have hc' : isAlnum c = false := by simpa using hc
      rw [splitRuns_sep_filter hc' cs, ih, maximalAlnumRuns_cons]
      simp [hc]

/-- Building a string from a character list preserves emptiness. -/
theorem mk_isEmpty (f : List Char) : (String.mk f).isEmpty = f.isEmpty := by
  cases f with
  | nil => rfl
  | cons c cs =>
    have h1 : (String.mk (c :: cs)).isEmpty = false := by
      rw [← Bool.not_eq_true]
      intro h
      have h2 := (String.isEmpty_iff _).mp h
      exact absurd (congrArg String.data h2) (by simp)
    rw [h1]
    rfl

/-- The source tokenizer and the spec-side tokenizer agree on every
input. -/
theorem tokenize_eq_tokenizeSpec (q : String) : tokenize q = tokenizeSpec q := by
  unfold tokenize tokenizeSpec
  rw [List.filter_map, List.map_map, ← splitRuns_filter]
  have hp : ((fun t : String => !t.isEmpty) ∘ String.mk) = fun f : List Char => !f.isEmpty := by
    funext f
    simp [Function.comp, mk_isEmpty]
  rw [hp]
  rfl

/-! ## Resolved summaries and the fulfilled result (search.ts lines 10-25)

`WikipediaPageSummary` is built at lines 46-54 from the summary-lookup
response; `image` is `metadata.thumbnail?.source`, hence optional. -/

/-- One resolved content summary (`WikipediaPageSummary` in search.ts). -/
structure WikipediaPageSummary where
  id : Int
  title : String
  titleHtml : String
  url : String
  image : Option String
  extract : String
  extractHtml : String
deriving DecidableEq

/-- The committed result snapshot (`FulfilledSearchResults` in search.ts). -/
structure FulfilledSearchResults where
  fullArticles : List WikipediaPageSummary
  basicArticles : List WikipediaPageSummary
  count : Nat
  more : Bool
deriving DecidableEq

/-- JavaScript truthiness of `article.image` (line 65): present and
non-empty. -/
def hasImage (a : WikipediaPageSummary) : Bool :=
  match a.image with
  | some s => !s.isEmpty
  | none => false

/-! ## Result classifier (search.ts lines 58-77)

The loop over `articles : readonly (WikipediaPageSummary | null)[]` with the
`articleIds` dedup set and the two accumulator arrays. -/

/-- The classification loop of lines 61-71: skip `null` outcomes and
already-seen entity ids; otherwise record the id and append to
`fullArticles` when `article.image` is truthy, else to `basicArticles`. -/
def classifyLoop :
    List (Option WikipediaPageSummary) → List Int →
    List WikipediaPageSummary → List WikipediaPageSummary →
    List WikipediaPageSummary × List WikipediaPageSummary
  | [], _, fulls, basics => (fulls, basics)
  | none :: rest, seen, fulls, basics => classifyLoop rest seen fulls basics
  | some a :: rest, seen, fulls, basics =>
    if a.id ∈ seen then classifyLoop rest seen fulls basics
    else if hasImage a then classifyLoop rest (a.id :: seen) (fulls ++ [a]) basics
    else classifyLoop rest (a.id :: seen) fulls (basics ++ [a])

/-- Lines 58-77: run the loop from empty accumulators and build the
committed snapshot, `count` being the sum of the two lengths and `more`
copied from the index response. -/
def classify (articles : List (Option WikipediaPageSummary)) (more : Bool) :
    FulfilledSearchResults :=
  let p := classifyLoop articles [] [] []
  { fullArticles := p.1
    basicArticles := p.2
    count := p.1.length + p.2.length
    more := more }

/-- Spec-side first-occurrence-wins deduplication by entity id: keep an
article iff its id is not in `seen` and was not the id of an earlier kept
article. -/
def keepFirstById : List WikipediaPageSummary → List Int → List WikipediaPageSummary
  | [], _ => []
  | a :: rest, seen =>
    if a.id ∈ seen then keepFirstById rest seen
    else a :: keepFirstById rest (a.id :: seen)

/-- The successes among the resolution outcomes, in index order:
`null` outcomes dropped. -/
def successes (articles : List (Option WikipediaPageSummary)) :
    List WikipediaPageSummary :=
  articles.filterMap (fun o => o)

/-! ### Classifier lemmas -/

theorem classifyLoop_eq (articles : List (Option WikipediaPageSummary)) :
    ∀ seen fulls basics,
      classifyLoop articles seen fulls basics =
        (fulls ++ (keepFirstById (successes articles) seen).filter hasImage,
         basics ++ (keepFirstById (successes articles) seen).filter (fun a => !hasImage a)) := by
  induction articles with
  | nil => intro seen fulls basics; simp [classifyLoop, successes, keepFirstById]
  | cons o rest ih =>
    intro seen fulls basics
    cases o with
    | none => simpa [classifyLoop, successes] using ih seen fulls basics
    | some a =>
      by_cases hmem : a.id ∈ seen
      · simpa [classifyLoop, successes, keepFirstById, hmem] using ih seen fulls basics
      · by_cases himg : hasImage a
        · simp only [classifyLoop, successes, keepFirstById, hmem, if_neg, if_pos, himg,
            List.filterMap_cons_some]
          rw [ih (a.id :: seen) (fulls ++ [a]) basics]
          simp [himg, successes]
        · simp only [classifyLoop, successes, keepFirstById, hmem, if_neg, if_pos, himg,
            List.filterMap_cons_some]
          rw [ih (a.id :: seen) fulls (basics ++ [a])]
          simp [himg, successes]

theorem classify_fullArticles (articles : List (Option WikipediaPageSummary))
    (more : Bool) :
    (classify articles more).fullArticles =
      (keepFirstById (successes articles) []).filter hasImage := by
  simp [classify, classifyLoop_eq]

theorem classify_basicArticles (articles : List (Option WikipediaPageSummary))
    (more : Bool) :
    (classify articles more).basicArticles =
      (keepFirstById (successes articles) []).filter (fun a => !hasImage a) := by
  simp [classify, classifyLoop_eq]

theorem classify_count (articles : List (Option WikipediaPageSummary))
    (more : Bool) :
    (classify articles more).count =
      (classify articles more).fullArticles.length +
        (classify articles more).basicArticles.length := by
  simp [classify]

theorem classify_more (articles : List (Option WikipediaPageSummary))
    (more : Bool) : (classify articles more).more = more := by
  simp [classify]

/-- Every article kept by the dedup pass has an id outside `seen`. -/
theorem keepFirstById_not_seen {l : List WikipediaPageSummary} :
    ∀ {seen : List Int} {a : WikipediaPageSummary},
      a ∈ keepFirstById l seen → a.id ∉ seen := by
  induction l with
  | nil => intro seen a h; simp [keepFirstById] at h
  | cons x rest ih =>
    intro seen a h
    by_cases hx : x.id ∈ seen
    · rw [keepFirstById, if_pos hx] at h; exact ih h
    · rw [keepFirstById, if_neg hx] at h
      rcases List.mem_cons.mp h with rfl | h
      · exact hx
      · have := ih h
        intro hs
        exact this (List.mem_cons_of_mem _ hs)

/-- The ids of the kept articles are pairwise distinct. -/
theorem keepFirstById_nodup (l : List WikipediaPageSummary) :
    ∀ seen : List Int,
      ((keepFirstById l seen).map WikipediaPageSummary.id).Nodup := by
  induction l with
  | nil => intro seen; simp [keepFirstById]
  | cons x rest ih =>
    intro seen
    by_cases hx : x.id ∈ seen
    · rw [keepFirstById, if_pos hx]; exact ih seen
    · rw [keepFirstById, if_neg hx]
      refine List.nodup_cons.mpr ⟨?_, ih (x.id :: seen)⟩
      intro hmem
      rcases List.mem_map.mp hmem with ⟨b, hb, hid⟩
      exact keepFirstById_not_seen hb (hid ▸ List.mem_cons_self _ _)

/-- First occurrence wins: each kept article is the first article of the
input carrying its entity id (among ids outside `seen`). -/
theorem keepFirstById_first {l : List WikipediaPageSummary} :
    ∀ {seen : List Int} {a : WikipediaPageSummary},
      a ∈ keepFirstById l seen →
        a.id ∉ seen ∧
        ∃ l1 l2, l = l1 ++ a :: l2 ∧ ∀ b ∈ l1, b.id ≠ a.id := by
  induction l with
  | nil => intro seen a h; simp [keepFirstById] at h
  | cons x rest ih =>
    intro seen a h
    by_cases hx : x.id ∈ seen
    · rw [keepFirstById, if_pos hx] at h
      obtain ⟨hns, l1, l2, hsplit, hfirst⟩ := ih h
      refine ⟨hns, x :: l1, l2, by simp [hsplit], ?_⟩
      intro b hb
      rcases List.mem_cons.mp hb with rfl | hb
      · intro hbid; exact hns (hbid ▸ hx)
      · exact hfirst b hb
    · rw [keepFirstById, if_neg hx] at h
      rcases List.mem_cons.mp h with rfl | h
      · exact ⟨hx, [], rest, rfl, by simp⟩
      · obtain ⟨hns, l1, l2, hsplit, hfirst⟩ := ih h
        have hne : a.id ≠ x.id := fun he => hns (he ▸ List.mem_cons_self _ _)
        have hns' : a.id ∉ seen := fun hs => hns (List.mem_cons_of_mem _ hs)
        refine ⟨hns', x :: l1, l2, by simp [hsplit], ?_⟩
        intro b hb
        rcases List.mem_cons.mp hb with rfl | hb
        · exact fun he => hne he.symm
        · exact hfirst b hb

/-- On an input whose ids are already pairwise distinct and disjoint from
`seen`, the dedup pass keeps everything. -/
theorem keepFirstById_of_nodup {l : List WikipediaPageSummary} :
    ∀ {seen : List Int},
      (l.map WikipediaPageSummary.id).Nodup →
      (∀ a ∈ l, a.id ∉ seen) →
      keepFirstById l seen = l := by
  induction l with
  | nil => intro seen _ _; rfl
  | cons x rest ih =>
    intro seen hnd hdisj
    have hx : x.id ∉ seen := hdisj x (List.mem_cons_self _ _)
    rw [keepFirstById, if_neg hx]
    rcases List.nodup_cons.mp hnd with ⟨hxr, hnd'⟩
    congr 1
    refine ih hnd' ?_
    intro a ha
    intro hmem
    rcases List.mem_cons.mp hmem with he | hs
    · exact hxr (he ▸ List.mem_map_of_mem _ ha)
    · exact hdisj a (List.mem_cons_of_mem _ ha) hs

/-- The two buckets together are a permutation of the deduplicated
successes. -/
theorem classify_perm (articles : List (Option WikipediaPageSummary))
    (more : Bool) :
    ((classify articles more).fullArticles ++ (classify articles more).basicArticles).Perm
      (keepFirstById (successes articles) []) := by
  rw [classify_fullArticles, classify_basicArticles]
  exact List.filter_append_perm hasImage (keepFirstById (successes articles) [])

/-! ## The debounce / generation-token protocol (search.ts lines 27-84)

The hook's stateful behaviour is a single-threaded event loop.  We embed it
as a small-step transition system.  Timer handles returned by
`window.setTimeout` are modelled by a monotone counter (`nextId`); the
mutable ref `searchDebounce.current` is the `debounce` field; at most one
timeout is ever scheduled because each effect run calls
`clearTimeout(searchDebounce.current)` (line 35) before scheduling a new
one (line 36), so a single optional `timer` field is faithful.  A fired
callback suspended on the network lives in `tasks`; `Phase.awaitingSearch`
is the suspension at `await client.search(...)` (line 37) and
`Phase.awaitingSummaries` the suspension at `await Promise.all(...)`
(line 41), reached only after the `searchId !== searchDebounce.current`
check at lines 38-40 has passed. -/

/-- A scheduled, not-yet-fired timeout (line 36): its handle, its fire
time (scheduling time + 250), and the captured `terms` closure value
(computed at line 33 before the timeout was scheduled). -/
structure Timer where
  id : Nat
  deadline : Nat
  terms : List String
deriving DecidableEq

/-- Where a fired attempt is suspended. -/
inductive Phase where
  | awaitingSearch (terms : List String)
  | awaitingSummaries (titles : List String) (more : Bool)
deriving DecidableEq

/-- An in-flight fulfillment attempt: its timer handle (the `searchId`
closure variable of line 36) and its suspension point. -/
structure Attempt where
  id : Nat
  phase : Phase
deriving DecidableEq

/-- The full state of the hook: the two `useState` cells (`query`,
`results`), the `useRef` cell (`debounce`), the pending timeout, the
suspended attempts, the timer-handle supply, and the current time. -/
structure SearchState where
  query : String
  results : Option FulfilledSearchResults
  debounce : Option Nat
  timer : Option Timer
  tasks : List Attempt
  nextId : Nat
  now : Nat
deriving DecidableEq

/-- Events driving the loop: a query submission (a `setQuery` call and the
effect run it triggers), a timer firing, and the three possible network
completions. -/
inductive Event where
  | submit (q : String) (t : Nat)
  | fire
  | searchOk (aid : Nat) (titles : List String) (more : Bool)
  | searchFail (aid : Nat)
  | summariesOk (aid : Nat) (outcomes : List (Option WikipediaPageSummary))
deriving DecidableEq

/-- The phase of the attempt with handle `aid`, if one is outstanding. -/
def findTask (tasks : List Attempt) (aid : Nat) : Option Phase :=
  (tasks.find? (fun a => a.id == aid)).map Attempt.phase

/-- Drop the attempt with handle `aid` (its callback returned or threw). -/
def removeTask (tasks : List Attempt) (aid : Nat) : List Attempt :=
  tasks.filter (fun a => a.id != aid)

/-- Move the attempt with handle `aid` to a new suspension point. -/
def setTask (tasks : List Attempt) (aid : Nat) (ph : Phase) : List Attempt :=
  tasks.map (fun a => if a.id == aid then { a with phase := ph } else a)

/-- One step of the event loop.  `none` means the event is not enabled in
this state (no such timer or outstanding call).

* `submit` is lines 33-36 plus line 78: compute `terms` from the new
  query, `setResults(undefined)`, `clearTimeout` of the pending timeout
  (modelled by overwriting `timer`), schedule a new timeout 250 in the
  future and store its handle in `searchDebounce.current`.
* `fire` runs the timeout: the callback starts and suspends at
  `await client.search(...)` (line 37).
* `searchOk` is the index query returning: lines 38-40 compare the
  captured `searchId` with `searchDebounce.current`; on mismatch the
  callback returns with no other effect; on match it issues the summary
  fan-out and suspends at `await Promise.all(...)` (line 41).
* `searchFail` is `client.search` rejecting: the `await` rethrows, the
  callback dies inside the event loop, and nothing after line 37 runs.
* `summariesOk` is the fan-out settling (`Promise.all` never rejects here
  because each element handler returns `null` on failure): lines 58-77
  run unconditionally — note there is no second generation check — and
  `setResults` commits the classified snapshot. -/
def step (s : SearchState) : Event → Option SearchState
  | Event.submit q t =>
    if s.now ≤ t then
      some { query := q
             results := none
             debounce := some s.nextId
             timer := some ⟨s.nextId, t + 250, tokenize q⟩
             tasks := s.tasks
             nextId := s.nextId + 1
             now := t }
    else none
  | Event.fire =>
    match s.timer with
    | some tm =>
      if s.now ≤ tm.deadline then
        some { s with
               timer := none
               now := tm.deadline
               tasks := s.tasks ++ [⟨tm.id, Phase.awaitingSearch tm.terms⟩] }
      else none
    | none => none
  | Event.searchOk aid titles more =>
    match findTask s.tasks aid with
    | some (Phase.awaitingSearch _) =>
      if s.debounce = some aid then
        some { s with tasks := setTask s.tasks aid (Phase.awaitingSummaries titles more) }
      else
        some { s with tasks := removeTask s.tasks aid }
    | _ => none
  | Event.searchFail aid =>
    match findTask s.tasks aid with
    | some (Phase.awaitingSearch _) => some { s with tasks := removeTask s.tasks aid }
    | _ => none
  | Event.summariesOk aid outcomes =>
    match findTask s.tasks aid with
    | some (Phase.awaitingSummaries titles more) =>
      if outcomes.length = titles.length then
        some { s with
               tasks := removeTask s.tasks aid
               results := some (classify outcomes more) }
      else none
    | _ => none

/-- Run a sequence of events. -/
def run (s : SearchState) : List Event → Option SearchState
  | [] => some s
  | e :: tr =>
    match step s e with
    | some s' => run s' tr
    | none => none

/-- The state on mount: empty query, no results, no pending timeout, no
outstanding call.  (The mount-time effect run is the first `submit`.) -/
def init : SearchState :=
  { query := ("")
    results := none
    debounce := none
    timer := none
    tasks := []
    nextId := 1
    now := 0 }

/-- Is this event a query submission? -/
def isSubmit : Event → Bool
  | Event.submit _ _ => true
  | _ => false

/-- Is this event a timer firing (the start of a fulfillment attempt)? -/
def isFire : Event → Bool
  | Event.fire => true
  | _ => false

/-- Number of fulfillment attempts fired along a trace. -/
def countFires (tr : List Event) : Nat := tr.countP isFire

/-! ### Timer-handle freshness

`window.setTimeout` never hands out a live handle twice; in the model the
counter `nextId` plays that role.  The invariant below (all handles in use
are below `nextId` and pairwise distinct) is what makes the
`searchId !== searchDebounce.current` comparison meaningful, and is the
backbone of the trace-level supersession theorems. -/

/-- The handle of the pending timeout, as a (zero- or one-element) list. -/
def timerIds (s : SearchState) : List Nat :=
  match s.timer with
  | some tm => [tm.id]
  | none => []

/-- Every timer handle currently in use: the suspended attempts' handles
and the pending timeout's handle. -/
def stateIds (s : SearchState) : List Nat :=
  s.tasks.map Attempt.id ++ timerIds s

/-- Handle freshness: all live handles are below the supply counter and
pairwise distinct. -/
def Fresh (s : SearchState) : Prop :=
  (∀ i ∈ stateIds s, i < s.nextId) ∧ (stateIds s).Nodup

theorem fresh_of_initial : Fresh init := by
  constructor
  · intro i hi; simp [stateIds, timerIds, init] at hi
  · simp [stateIds, timerIds, init]

theorem setTask_map_id (tasks : List Attempt) (aid : Nat) (ph : Phase) :
    (setTask tasks aid ph).map Attempt.id = tasks.map Attempt.id := by
  unfold setTask
  rw [List.map_map]
  refine List.map_congr_left ?_
  intro a _
  by_cases h : a.id = aid <;> simp [h]

theorem removeTask_sublist (tasks : List Attempt) (aid : Nat) :
    List.Sublist (removeTask tasks aid) tasks :=
  List.filter_sublist tasks

theorem not_mem_removeTask (tasks : List Attempt) (aid : Nat) :
    aid ∉ (removeTask tasks aid).map Attempt.id := by
  intro h
  rcases List.mem_map.mp h with ⟨a, ha, hid⟩
  rcases List.mem_filter.mp ha with ⟨_, hne⟩
  simp only [bne_iff_ne, ne_eq] at hne
  exact hne hid

theorem findTask_some_mem {tasks : List Attempt} {aid : Nat} {ph : Phase}
    (h : findTask tasks aid = some ph) : aid ∈ tasks.map Attempt.id := by
  rcases Option.map_eq_some'.mp h with ⟨a, hfind, _⟩
  have hmem := List.mem_of_find?_eq_some hfind
  have hpred := List.find?_some hfind
  simp only [beq_iff_eq] at hpred
  exact hpred ▸ List.mem_map_of_mem _ hmem

theorem findTask_eq_none {tasks : List Attempt} {aid : Nat}
    (h : aid ∉ tasks.map Attempt.id) : findTask tasks aid = none := by
  have : tasks.find? (fun a => a.id == aid) = none := by
    rw [List.find?_eq_none]
    intro a ha
    simp only [beq_iff_eq]
    intro he
    exact h (he ▸ List.mem_map_of_mem _ ha)
  simp [findTask, this]

/-- `stateIds` unfolded. -/
theorem stateIds_parts (s : SearchState) :
    stateIds s = s.tasks.map Attempt.id ++ timerIds s := rfl

theorem timerIds_some {s : SearchState} {tm : Timer} (h : s.timer = some tm) :
    timerIds s = [tm.id] := by
  unfold timerIds
  rw [h]

/-- Freshness transfers along equality of live handles. -/
theorem fresh_of_eq {s1 s2 : SearchState} (hf : Fresh s1)
    (hids : stateIds s2 = stateIds s1) (hn : s2.nextId = s1.nextId) : Fresh s2 := by
  obtain ⟨hbd, hnd⟩ := hf
  exact ⟨fun i hi => hn ▸ hbd i (hids ▸ hi), hids ▸ hnd⟩

/-- Freshness transfers to a state whose live handles are a sublist. -/
theorem fresh_of_sublist {s1 s2 : SearchState} (hf : Fresh s1)
    (hids : List.Sublist (stateIds s2) (stateIds s1))
    (hn : s2.nextId = s1.nextId) : Fresh s2 := by
  obtain ⟨hbd, hnd⟩ := hf
  exact ⟨fun i hi => hn ▸ hbd i (hids.mem hi), hnd.sublist hids⟩

/-- Any step preserves handle freshness. -/
theorem fresh_step {s s' : SearchState} {e : Event}
    (hf : Fresh s) (hstep : step s e = some s') : Fresh s' := by
  have hbd := hf.1
  have hnd := hf.2
  cases e with
  | submit q t =>
    simp only [step] at hstep
    split at hstep
    · injection hstep with h
      subst h
      constructor
      · intro i hi
        show i < s.nextId + 1
        have hi' : i ∈ s.tasks.map Attempt.id ∨ i ∈ [s.nextId] := by
          have : i ∈ s.tasks.map Attempt.id ++ [s.nextId] := hi
          exact List.mem_append.mp this
        rcases hi' with hi' | hi'
        · exact Nat.lt_succ_of_lt (hbd i (List.mem_append_left _ hi'))
        · simp only [List.mem_singleton] at hi'
          omega
      · show (s.tasks.map Attempt.id ++ [s.nextId]).Nodup
        have hnd' : (s.tasks.map Attempt.id ++ timerIds s).Nodup := hnd
        rw [List.nodup_append]
        refine ⟨(List.nodup_append.mp hnd').1, List.nodup_singleton _, ?_⟩
        intro i hi hi'
        simp only [List.mem_singleton] at hi'
        exact Nat.lt_irrefl _ (hi' ▸ hbd i (List.mem_append_left _ hi))
    · exact absurd hstep (by simp)
  | fire =>
    simp only [step] at hstep
    split at hstep
    next tm htm =>
      split at hstep
      · injection hstep with h
        subst h
        refine fresh_of_eq hf ?_ rfl
        show (s.tasks ++ [Attempt.mk tm.id (Phase.awaitingSearch tm.terms)]).map
            Attempt.id ++ [] = stateIds s
        rw [stateIds_parts, timerIds_some htm, List.append_nil, List.map_append]
        rfl
      · exact absurd hstep (by simp)
    next => exact absurd hstep (by simp)
  | searchOk aid titles more =>
    simp only [step] at hstep
    split at hstep
    next trm hph =>
      split at hstep
      · injection hstep with h
        subst h
        refine fresh_of_eq hf ?_ rfl
        show (setTask s.tasks aid (Phase.awaitingSummaries titles more)).map Attempt.id ++
          timerIds s = stateIds s
        rw [setTask_map_id]
        rfl
      · injection hstep with h
        subst h
        refine fresh_of_sublist hf ?_ rfl
        show List.Sublist ((removeTask s.tasks aid).map Attempt.id ++ timerIds s)
          (s.tasks.map Attempt.id ++ timerIds s)
        exact List.Sublist.append ((removeTask_sublist s.tasks aid).map Attempt.id)
          (List.Sublist.refl _)
    next => exact absurd hstep (by simp)
  | searchFail aid =>
    simp only [step] at hstep
    split at hstep
    next trm hph =>
      injection hstep with h
      subst h
      refine fresh_of_sublist hf ?_ rfl
      show List.Sublist ((removeTask s.tasks aid).map Attempt.id ++ timerIds s)
        (s.tasks.map Attempt.id ++ timerIds s)
      exact List.Sublist.append ((removeTask_sublist s.tasks aid).map Attempt.id)
        (List.Sublist.refl _)
    next => exact absurd hstep (by simp)
  | summariesOk aid outcomes =>
    simp only [step] at hstep
    split at hstep
    next titles more hph =>
      split at hstep
      · injection hstep with h
        subst h
        refine fresh_of_sublist hf ?_ rfl
        show List.Sublist ((removeTask s.tasks aid).map Attempt.id ++ timerIds s)
          (s.tasks.map Attempt.id ++ timerIds s)
        exact List.Sublist.append ((removeTask_sublist s.tasks aid).map Attempt.id)
          (List.Sublist.refl _)
      · exact absurd hstep (by simp)
    next => exact absurd hstep (by simp)

/-- A handle that is dead (not in use) and already minted never comes back
to life in one step. -/
theorem dead_step {s s' : SearchState} {e : Event} {aid : Nat}
    (hout : aid ∉ stateIds s) (hlt : aid < s.nextId)
    (hstep : step s e = some s') : aid ∉ stateIds s' ∧ aid < s'.nextId := by
  cases e with
  | submit q t =>
    simp only [step] at hstep
    split at hstep
    · injection hstep with h
      subst h
      refine ⟨?_, Nat.lt_succ_of_lt hlt⟩
      intro hi
      have hi' : aid ∈ s.tasks.map Attempt.id ∨ aid ∈ [s.nextId] := by
        have : aid ∈ s.tasks.map Attempt.id ++ [s.nextId] := hi
        exact List.mem_append.mp this
      rcases hi' with hi' | hi'
      · exact hout (List.mem_append_left _ hi')
      · simp only [List.mem_singleton] at hi'
        omega
    · exact absurd hstep (by simp)
  | fire =>
    simp only [step] at hstep
    split at hstep
    next tm htm =>
      split at hstep
      · injection hstep with h
        subst h
        refine ⟨?_, hlt⟩
        intro hi
        apply hout
        have hids : (s.tasks ++ [Attempt.mk tm.id (Phase.awaitingSearch tm.terms)]).map
            Attempt.id ++ ([] : List Nat) = stateIds s := by
          rw [stateIds_parts, timerIds_some htm, List.append_nil, List.map_append]
          rfl
        exact hids ▸ hi
      · exact absurd hstep (by simp)
    next => exact absurd hstep (by simp)
  | searchOk aid' titles more =>
    simp only [step] at hstep
    split at hstep
    next trm hph =>
      split at hstep
      · injection hstep with h
        subst h
        refine ⟨?_, hlt⟩
        intro hi
        apply hout
        have hids : (setTask s.tasks aid' (Phase.awaitingSummaries titles more)).map Attempt.id ++
            timerIds s = stateIds s := by
          rw [setTask_map_id]
          rfl
        exact hids ▸ hi
      · injection hstep with h
        subst h
        refine ⟨?_, hlt⟩
        intro hi
        apply hout
        have hsub : List.Sublist ((removeTask s.tasks aid').map Attempt.id ++ timerIds s)
            (s.tasks.map Attempt.id ++ timerIds s) :=
          List.Sublist.append ((removeTask_sublist s.tasks aid').map Attempt.id)
            (List.Sublist.refl _)
        exact hsub.mem hi
    next => exact absurd hstep (by simp)
  | searchFail aid' =>
    simp only [step] at hstep
    split at hstep
    next trm hph =>
      injection hstep with h
      subst h
      refine ⟨?_, hlt⟩
      intro hi
      apply hout
      have hsub : List.Sublist ((removeTask s.tasks aid').map Attempt.id ++ timerIds s)
          (s.tasks.map Attempt.id ++ timerIds s) :=
        List.Sublist.append ((removeTask_sublist s.tasks aid').map Attempt.id)
          (List.Sublist.refl _)
      exact hsub.mem hi
    next => exact absurd hstep (by simp)
  | summariesOk aid' outcomes =>
    simp only [step] at hstep
    split at hstep
    next titles more hph =>
      split at hstep
      · injection hstep with h
        subst h
        refine ⟨?_, hlt⟩
        intro hi
        apply hout
        have hsub : List.Sublist ((removeTask s.tasks aid').map Attempt.id ++ timerIds s)
            (s.tasks.map Attempt.id ++ timerIds s) :=
          List.Sublist.append ((removeTask_sublist s.tasks aid').map Attempt.id)
            (List.Sublist.refl _)
        exact hsub.mem hi
      · exact absurd hstep (by simp)
    next => exact absurd hstep (by simp)

/-- A dead, already-minted handle stays dead along any run. -/
theorem dead_run {aid : Nat} :
    ∀ {s s' : SearchState} {tr : List Event},
      aid ∉ stateIds s → aid < s.nextId → run s tr = some s' →
      aid ∉ stateIds s' ∧ aid < s'.nextId := by
  intro s s' tr
  induction tr generalizing s with
  | nil => intro hout hlt h; injection h with h; exact h ▸ ⟨hout, hlt⟩
  | cons e tr ih =>
    intro hout hlt h
    simp only [run] at h
    split at h
    next s1 hstep =>
      obtain ⟨hout1, hlt1⟩ := dead_step hout hlt hstep
      exact ih hout1 hlt1 h
    next => exact absurd h (by simp)

/-- Freshness holds in every state reachable along a run. -/
theorem fresh_run :
    ∀ {s s' : SearchState} {tr : List Event},
      Fresh s → run s tr = some s' → Fresh s' := by
  intro s s' tr
  induction tr generalizing s with
  | nil => intro hf h; injection h with h; exact h ▸ hf
  | cons e tr ih =>
    intro hf h
    simp only [run] at h
    split at h
    next s1 hstep => exact ih (fresh_step hf hstep) h
    next => exact absurd h (by simp)

/-! ### Step characterization lemmas -/

/-- Lines 33-36: what one submission does, spelled out. -/
theorem step_submit {s : SearchState} {q : String} {t : Nat} (h : s.now ≤ t) :
    step s (Event.submit q t) =
      some { query := q
             results := none
             debounce := some s.nextId
             timer := some ⟨s.nextId, t + 250, tokenize q⟩
             tasks := s.tasks
             nextId := s.nextId + 1
             now := t } := by
  simp [step, h]

/-- Any successful submission schedules a fresh timeout 250 in the future
and clears the results, whatever the previous state was. -/
theorem step_submit_inv {s s1 : SearchState} {q : String} {t : Nat}
    (hstep : step s (Event.submit q t) = some s1) :
    s1.timer = some ⟨s.nextId, t + 250, tokenize q⟩ ∧ s1.results = none := by
  simp only [step] at hstep
  split at hstep
  · injection hstep with h
    subst h
    exact ⟨rfl, rfl⟩
  · exact absurd hstep (by simp)

/-- Line 36, the timeout firing: the callback starts and suspends on the
index query, carrying the terms captured at scheduling time. -/
theorem step_fire {s : SearchState} {tm : Timer} (htm : s.timer = some tm)
    (h : s.now ≤ tm.deadline) :
    step s Event.fire =
      some { s with
             timer := none
             now := tm.deadline
             tasks := s.tasks ++ [⟨tm.id, Phase.awaitingSearch tm.terms⟩] } := by
  simp [step, htm, h]

/-- Any successful firing of the pending timeout starts the attempt at the
timeout's deadline with the timeout's terms. -/
theorem step_fire_inv {s s1 : SearchState} {tm : Timer} (htm : s.timer = some tm)
    (hstep : step s Event.fire = some s1) :
    s1.now = tm.deadline ∧ Attempt.mk tm.id (Phase.awaitingSearch tm.terms) ∈ s1.tasks := by
  simp only [step, htm] at hstep
  split at hstep
  · injection hstep with h
    subst h
    exact ⟨rfl, by simp⟩
  · exact absurd hstep (by simp)

/-- A firing consumes the pending timeout. -/
theorem step_fire_consumes {s s1 : SearchState}
    (hstep : step s Event.fire = some s1) :
    s.timer.isSome = true ∧ s1.timer = none := by
  simp only [step] at hstep
  split at hstep
  next tm htm =>
    split at hstep
    · injection hstep with h
      subst h
      exact ⟨by simp [htm], rfl⟩
    · exact absurd hstep (by simp)
  next => exact absurd hstep (by simp)

/-- Lines 37-41 when the generation check passes: the attempt moves to the
summary fan-out. -/
theorem step_searchOk_current {s : SearchState} {aid : Nat} {trm titles : List String}
    {more : Bool}
    (hT : findTask s.tasks aid = some (Phase.awaitingSearch trm))
    (hcur : s.debounce = some aid) :
    step s (Event.searchOk aid titles more) =
      some { s with tasks := setTask s.tasks aid (Phase.awaitingSummaries titles more) } := by
  simp [step, hT, hcur]

/-- Lines 38-40 when the generation check fails: the callback returns at
once; the only change is that the attempt is gone. -/
theorem step_searchOk_superseded {s : SearchState} {aid : Nat} {trm titles : List String}
    {more : Bool}
    (hT : findTask s.tasks aid = some (Phase.awaitingSearch trm))
    (hSup : s.debounce ≠ some aid) :
    step s (Event.searchOk aid titles more) =
      some { s with tasks := removeTask s.tasks aid } := by
  simp [step, hT, hSup]

/-- Line 37 rejecting: the callback dies inside the event loop; the only
change is that the attempt is gone. -/
theorem step_searchFail {s : SearchState} {aid : Nat} {trm : List String}
    (hT : findTask s.tasks aid = some (Phase.awaitingSearch trm)) :
    step s (Event.searchFail aid) = some { s with tasks := removeTask s.tasks aid } := by
  simp [step, hT]

/-- Lines 41-77: the fan-out settles and the classified snapshot is
committed — with no second generation check. -/
theorem step_summariesOk {s : SearchState} {aid : Nat} {titles : List String} {more : Bool}
    {outcomes : List (Option WikipediaPageSummary)}
    (hT : findTask s.tasks aid = some (Phase.awaitingSummaries titles more))
    (hlen : outcomes.length = titles.length) :
    step s (Event.summariesOk aid outcomes) =
      some { s with
             tasks := removeTask s.tasks aid
             results := some (classify outcomes more) } := by
  simp [step, hT, hlen]

/-- No completion event can run for a handle that is not in use. -/
theorem step_summariesOk_dead {s : SearchState} {aid : Nat}
    (h : aid ∉ stateIds s) (outcomes : List (Option WikipediaPageSummary)) :
    step s (Event.summariesOk aid outcomes) = none := by
  have hfd : findTask s.tasks aid = none :=
    findTask_eq_none (fun hm => h (List.mem_append_left _ hm))
  simp [step, hfd]

/-- After removing the attempt with handle `aid`, that handle is no longer
in use anywhere (freshness rules it out of the timer slot). -/
theorem removed_handle_dead {s : SearchState} {aid : Nat} (hf : Fresh s)
    (hmem : aid ∈ s.tasks.map Attempt.id) :
    aid ∉ stateIds { s with tasks := removeTask s.tasks aid } := by
  intro hi
  have hi' := List.mem_append.mp
    (show aid ∈ (removeTask s.tasks aid).map Attempt.id ++ timerIds s from hi)
  rcases hi' with hi' | hi'
  · exact not_mem_removeTask s.tasks aid hi'
  · have hnd : (s.tasks.map Attempt.id ++ timerIds s).Nodup := hf.2
    exact (List.nodup_append.mp hnd).2.2 hmem hi'

/-- Every non-submission, non-firing step leaves the pending timeout
untouched. -/
theorem step_timer_eq {s s1 : SearchState} {e : Event}
    (hstep : step s e = some s1) (hns : isSubmit e = false) (hnf : isFire e = false) :
    s1.timer = s.timer := by
  cases e with
  | submit q t => simp [isSubmit] at hns
  | fire => simp [isFire] at hnf
  | searchOk aid titles more =>
    simp only [step] at hstep
    split at hstep
    next trm hph =>
      split at hstep <;> (injection hstep with h; subst h; rfl)
    next => exact absurd hstep (by simp)
  | searchFail aid =>
    simp only [step] at hstep
    split at hstep
    next trm hph =>
      injection hstep with h
      subst h
      rfl
    next => exact absurd hstep (by simp)
  | summariesOk aid outcomes =>
    simp only [step] at hstep
    split at hstep
    next titles more hph =>
      split at hstep
      · injection hstep with h
        subst h
        rfl
      · exact absurd hstep (by simp)
    next => exact absurd hstep (by simp)

/-- Along a trace with no submissions, at most one attempt can fire from a
state with at most one pending timeout (which the model guarantees). -/
theorem countFires_bound :
    ∀ (tr : List Event) (s s' : SearchState),
      (∀ e ∈ tr, isSubmit e = false) → run s tr = some s' →
      countFires tr ≤ (if s.timer.isSome then 1 else 0) := by
  intro tr
  induction tr with
  | nil =>
    intro s s' _ _
    simp [countFires]
  | cons e tr ih =>
    intro s s' hns hrun
    simp only [run] at hrun
    split at hrun
    next s1 hstep =>
      have hns' : ∀ e' ∈ tr, isSubmit e' = false :=
        fun e' he' => hns e' (List.mem_cons_of_mem _ he')
      have hb := ih s1 s' hns' hrun
      cases e with
      | submit q t => exact absurd (hns _ (List.mem_cons_self _ _)) (by simp [isSubmit])
      | fire =>
        obtain ⟨hsome, hnone⟩ := step_fire_consumes hstep
        rw [hnone] at hb
        have h0 : countFires tr = 0 := by simpa using hb
        have h1 : countFires (Event.fire :: tr) = countFires tr + 1 := by
          simp [countFires, List.countP_cons, isFire]
        rw [h1, h0, hsome]
        simp
      | searchOk aid titles more =>
        have ht := step_timer_eq hstep (by simp [isSubmit]) (by simp [isFire])
        rw [ht] at hb
        have h1 : countFires (Event.searchOk aid titles more :: tr) = countFires tr := by
          simp [countFires, List.countP_cons, isFire]
        rw [h1]
        exact hb
      | searchFail aid =>
        have ht := step_timer_eq hstep (by simp [isSubmit]) (by simp [isFire])
        rw [ht] at hb
        have h1 : countFires (Event.searchFail aid :: tr) = countFires tr := by
          simp [countFires, List.countP_cons, isFire]
        rw [h1]
        exact hb
      | summariesOk aid outcomes =>
        have ht := step_timer_eq hstep (by simp [isSubmit]) (by simp [isFire])
        rw [ht] at hb
        have h1 : countFires (Event.summariesOk aid outcomes :: tr) = countFires tr := by
          simp [countFires, List.countP_cons, isFire]
        rw [h1]
        exact hb
    next => exact absurd hrun (by simp)

/-! ## Concrete fixtures for witnesses and counterexamples -/

/-- A concrete resolved summary with a visual asset. -/
def artA : WikipediaPageSummary :=
  ⟨7, ("Amsterdam"), ("Amsterdam"), ("https://w/a"), some ("thumb.jpg"), ("ex"), ("exh")⟩

/-- A concrete resolved summary without a visual asset. -/
def artB : WikipediaPageSummary :=
  ⟨8, ("Berlin"), ("Berlin"), ("https://w/b"), none, ("ex"), ("exh")⟩

/-- Attempt 1 fires, its index query returns while it is still current, and
only then a second submission supersedes it — while its summary fan-out is
still outstanding. -/
def staleTrace : List Event :=
  [Event.submit ("alpha") 0, Event.fire,
   Event.searchOk 1 [("Amsterdam")] false, Event.submit ("beta") 300]

/-- The state reached by `staleTrace`: attempt 1 suspended on its fan-out,
attempt 2 current and pending, results cleared. -/
def sStale : SearchState :=
  { query := ("beta")
    results := none
    debounce := some 2
    timer := some ⟨2, 550, [("beta")]⟩
    tasks := [⟨1, Phase.awaitingSummaries [("Amsterdam")] false⟩]
    nextId := 3
    now := 300 }

/-- `sStale` after the superseded attempt's fan-out settles: the stale
snapshot is committed anyway. -/
def sStaleDone : SearchState :=
  { query := ("beta")
    results := some (classify [some artA] false)
    debounce := some 2
    timer := some ⟨2, 550, [("beta")]⟩
    tasks := []
    nextId := 3
    now := 300 }

/-- A state with one attempt suspended on its summary fan-out. -/
def sPending3 : SearchState :=
  { query := ("x")
    results := none
    debounce := some 1
    timer := none
    tasks := [⟨1, Phase.awaitingSummaries [("T1"), ("T2"), ("T3")] false⟩]
    nextId := 2
    now := 250 }

/-- A state with one attempt suspended on its index query. -/
def sSearching : SearchState :=
  { query := ("x")
    results := none
    debounce := some 1
    timer := none
    tasks := [⟨1, Phase.awaitingSearch []⟩]
    nextId := 2
    now := 250 }

/-- Attempt 1 suspended on its index query, already superseded by a second
submission. -/
def sSupersededEarly : SearchState :=
  { query := ("b")
    results := none
    debounce := some 2
    timer := some ⟨2, 550, [("b")]⟩
    tasks := [⟨1, Phase.awaitingSearch [("a")]⟩]
    nextId := 3
    now := 300 }

/-- `sSupersededEarly` after attempt 1's index query returned and was
discarded by the generation check. -/
def sDiscarded : SearchState :=
  { query := ("b")
    results := none
    debounce := some 2
    timer := some ⟨2, 550, [("b")]⟩
    tasks := []
    nextId := 3
    now := 300 }

/-- The state right after a first submission. -/
def sAfterSubmit : SearchState :=
  { query := ("a")
    results := none
    debounce := some 1
    timer := some ⟨1, 250, [("a")]⟩
    tasks := []
    nextId := 2
    now := 0 }

/-! ## The claims -/

/-- C1, as stated, is FALSE on the code: "if attempt A is superseded by
attempt B before A's resolution pipeline completes, A's completion never
mutates Query State".  The generation check (lines 38-40) runs only when
the index query returns; there is no second check after the summary
fan-out (line 41 onwards), so an attempt superseded during the fan-out
still commits.  Concretely, after `staleTrace` attempt 1 is superseded
(the current handle is 2) yet its completion step changes `results` from
`none` to a committed snapshot. -/
theorem C1_counterexample :
    ¬ (∀ (tr : List Event) (s s' : SearchState) (aid : Nat)
         (outcomes : List (Option WikipediaPageSummary)),
        run init tr = some s →
        s.debounce ≠ some aid →
        step s (Event.summariesOk aid outcomes) = some s' →
        s'.results = s.results) := by
  intro h
  have h1 : run init staleTrace = some sStale := rfl
  have h2 : step sStale (Event.summariesOk 1 [some artA]) = some sStaleDone := rfl
  have h3 := h staleTrace sStale sStaleDone 1 [some artA] h1 (by decide) h2
  exact absurd h3 (by decide)

/-- C1 amended: the stale-result rejection the code actually implements is
anchored at the index-query return, not at pipeline completion.  An
attempt superseded BEFORE its index query returns never mutates Query
State: its search-return step only removes the attempt (results, query,
debounce handle, timer all unchanged), and afterwards no completion step
of that attempt can ever run, along any continuation of the trace.  (A
supersession happening after the check, during the summary fan-out, is
not detected — see the counterexample.) -/
theorem C1_superseded_before_search_return
    (tr1 tr2 : List Event) (s s' s'' : SearchState) (aid : Nat)
    (trm titles : List String) (more : Bool)
    (h1 : run init tr1 = some s)
    (hT : findTask s.tasks aid = some (Phase.awaitingSearch trm))
    (hSup : s.debounce ≠ some aid)
    (h2 : step s (Event.searchOk aid titles more) = some s')
    (h3 : run s' tr2 = some s'') :
    s' = { s with tasks := removeTask s.tasks aid } ∧
    s'.results = s.results ∧
    (∀ outcomes, step s'' (Event.summariesOk aid outcomes) = none) := by
  have hf : Fresh s := fresh_run fresh_of_initial h1
  have hstep := @step_searchOk_superseded s aid trm titles more hT hSup
  rw [hstep] at h2
  injection h2 with h2
  subst h2
  refine ⟨rfl, rfl, ?_⟩
  intro outcomes
  have hmem : aid ∈ s.tasks.map Attempt.id := findTask_some_mem hT
  have hdead : aid ∉ stateIds { s with tasks := removeTask s.tasks aid } :=
    removed_handle_dead hf hmem
  have hlt : aid < s.nextId := hf.1 aid (List.mem_append_left _ hmem)
  obtain ⟨hdead2, _⟩ := dead_run hdead hlt h3
  exact step_summariesOk_dead hdead2 outcomes

/-- C1 witness: a concrete early-superseded attempt is discarded with no
state change and can never commit. -/
theorem C1_superseded_before_search_return_witness :
    sDiscarded.results = sSupersededEarly.results ∧
    step sDiscarded (Event.summariesOk 1 [some artA]) = none := by
  have h := C1_superseded_before_search_return
      [Event.submit ("a") 0, Event.fire, Event.submit ("b") 300] []
      sSupersededEarly sDiscarded sDiscarded 1 [("a")] [("T")] false
      rfl rfl (by decide) rfl rfl
  exact ⟨h.2.1, h.2.2 [some artA]⟩

/-- C2: in every committed snapshot, each entity id appears in at most one
of the two sequences and at most once overall, and each kept summary is
the first non-failed summary carrying its id, in the index's result
order. -/
theorem C2_dedup_first_wins (outcomes : List (Option WikipediaPageSummary)) (more : Bool) :
    (((classify outcomes more).fullArticles ++ (classify outcomes more).basicArticles).map
        WikipediaPageSummary.id).Nodup ∧
    ∀ a ∈ (classify outcomes more).fullArticles ++ (classify outcomes more).basicArticles,
      ∃ l1 l2, successes outcomes = l1 ++ a :: l2 ∧ ∀ b ∈ l1, b.id ≠ a.id := by
  constructor
  · have hperm := (classify_perm outcomes more).map WikipediaPageSummary.id
    exact hperm.nodup_iff.mpr (keepFirstById_nodup (successes outcomes) [])
  · intro a ha
    have hk : a ∈ keepFirstById (successes outcomes) [] :=
      (classify_perm outcomes more).mem_iff.mp ha
    obtain ⟨_, l1, l2, hsplit, hfirst⟩ := keepFirstById_first hk
    exact ⟨l1, l2, hsplit, hfirst⟩

/-- C3: classification puts each kept summary with a truthy (present,
non-empty) visual-asset reference into `fullArticles` and each kept
summary without one into `basicArticles`; `count` is the sum of the two
lengths; the index's `more` flag is carried through unchanged. -/
theorem C3_classification_buckets (outcomes : List (Option WikipediaPageSummary))
    (more : Bool) :
    (classify outcomes more).fullArticles =
      (keepFirstById (successes outcomes) []).filter hasImage ∧
    (classify outcomes more).basicArticles =
      (keepFirstById (successes outcomes) []).filter (fun a => !hasImage a) ∧
    (classify outcomes more).count =
      (classify outcomes more).fullArticles.length +
        (classify outcomes more).basicArticles.length ∧
    (classify outcomes more).more = more :=
  ⟨classify_fullArticles outcomes more, classify_basicArticles outcomes more,
   classify_count outcomes more, classify_more outcomes more⟩

/-- C4: each submission replaces the pending not-yet-fired timeout (and
clears results); after submissions at t=0 and t=100 the state holds
exactly one pending timeout, scheduled for t=350 with the second query's
tokens and no fired attempt; along any continuation without further
submissions at most one attempt fires; and firing that timeout starts the
attempt at t=350 with the second query's tokens. -/
theorem C4_debounce (q1 q2 : String) (rest : List Event) (s2 s' : SearchState)
    (hns : ∀ e ∈ rest, isSubmit e = false)
    (h2 : run init [Event.submit q1 0, Event.submit q2 100] = some s2)
    (hrun : run s2 rest = some s') :
    s2.timer = some ⟨2, 350, tokenize q2⟩ ∧
    s2.tasks = [] ∧
    countFires rest ≤ 1 ∧
    (∀ s3 s4 : SearchState, s3.timer = some ⟨2, 350, tokenize q2⟩ →
      step s3 Event.fire = some s4 →
      s4.now = 350 ∧ Attempt.mk 2 (Phase.awaitingSearch (tokenize q2)) ∈ s4.tasks) ∧
    (∀ (s3 : SearchState) (q : String) (t : Nat) (s4 : SearchState),
      step s3 (Event.submit q t) = some s4 →
      s4.timer = some ⟨s3.nextId, t + 250, tokenize q⟩ ∧ s4.results = none) := by
  have he : run init [Event.submit q1 0, Event.submit q2 100] =
      some { query := q2
             results := none
             debounce := some 2
             timer := some ⟨2, 350, tokenize q2⟩
             tasks := []
             nextId := 3
             now := 100 } := rfl
  rw [he] at h2
  injection h2 with h2
  subst h2
  refine ⟨rfl, rfl, ?_, ?_, ?_⟩
  · have hb := countFires_bound rest _ s' hns hrun
    simpa using hb
  · intro s3 s4 htm hstep
    simpa using step_fire_inv htm hstep
  · intro s3 q t s4 hstep
    exact step_submit_inv hstep

/-- C4 witness: the two-submission trace followed by the single fire. -/
theorem C4_debounce_witness :
    countFires [Event.fire] ≤ 1 ∧
    run init [Event.submit ("a") 0, Event.submit ("ab") 100] =
      some { query := ("ab")
             results := none
             debounce := some 2
             timer := some ⟨2, 350, tokenize ("ab")⟩
             tasks := []
             nextId := 3
             now := 100 } := by
  have h := C4_debounce ("a") ("ab") [Event.fire]
      { query := ("ab")
        results := none
        debounce := some 2
        timer := some ⟨2, 350, tokenize ("ab")⟩
        tasks := []
        nextId := 3
        now := 100 }
      { query := ("ab")
        results := none
        debounce := some 2
        timer := none
        tasks := [⟨2, Phase.awaitingSearch (tokenize ("ab"))⟩]
        nextId := 3
        now := 350 }
      (by
        intro e he
        simp only [List.mem_singleton] at he
        subst he
        rfl)
      rfl rfl
  exact ⟨h.2.2.1, rfl⟩

/-- C5: the tokenizer splits on maximal runs of characters outside
`[A-Za-z0-9]`, discards empty fragments and lowercases the survivors — it
agrees everywhere with the spec-side maximal-run description (a total,
pure function), and the two spec examples hold. -/
theorem C5_tokenize_spec :
    tokenize ("Hello, World! 42") = [("hello"), ("world"), ("42")] ∧
    tokenize ("   ") = [] ∧
    ∀ q : String, tokenize q = tokenizeSpec q :=
  ⟨by decide, by decide, tokenize_eq_tokenizeSpec⟩

/-- C6: `Promise.all` over per-identifier handlers that map failures to
`null` (lines 41-56) makes resolver failures isolated: the attempt still
commits, the committed snapshot holds exactly the successful summaries
after first-wins dedup, `count` is their deduplicated total, and when the
successes' ids are distinct `count` is exactly the number of successes. -/
theorem C6_isolated_resolver_failure (s : SearchState) (aid : Nat)
    (titles : List String) (more : Bool)
    (outcomes : List (Option WikipediaPageSummary))
    (hT : findTask s.tasks aid = some (Phase.awaitingSummaries titles more))
    (hlen : outcomes.length = titles.length) :
    step s (Event.summariesOk aid outcomes) =
      some { s with
             tasks := removeTask s.tasks aid
             results := some (classify outcomes more) } ∧
    ((classify outcomes more).fullArticles ++
        (classify outcomes more).basicArticles).Perm
      (keepFirstById (successes outcomes) []) ∧
    (classify outcomes more).count = (keepFirstById (successes outcomes) []).length ∧
    (((successes outcomes).map WikipediaPageSummary.id).Nodup →
      (classify outcomes more).count = (successes outcomes).length) := by
  have hcount : (classify outcomes more).count =
      (keepFirstById (successes outcomes) []).length := by
    have h1 : (classify outcomes more).count =
        ((classify outcomes more).fullArticles ++
          (classify outcomes more).basicArticles).length := by
      rw [classify_count, List.length_append]
    rw [h1, (classify_perm outcomes more).length_eq]
  refine ⟨step_summariesOk hT hlen, classify_perm outcomes more, hcount, ?_⟩
  intro hnd
  rw [hcount, keepFirstById_of_nodup hnd (by intro a _; simp)]

/-- C6 witness: three identifiers, the middle resolution failing — the two
successes are committed and `count = 2`. -/
theorem C6_isolated_resolver_failure_witness :
    step sPending3 (Event.summariesOk 1 [some artA, none, some artB]) =
      some { sPending3 with
             tasks := removeTask sPending3.tasks 1
             results := some (classify [some artA, none, some artB] false) } ∧
    (classify [some artA, none, some artB] false).count = 2 :=
  ⟨(C6_isolated_resolver_failure sPending3 1 [("T1"), ("T2"), ("T3")] false
      [some artA, none, some artB] rfl rfl).1, by decide⟩

/-- C7: when the index query itself fails (line 37 rejecting), nothing is
committed for the attempt: the callback dies, the attempt is dropped and
every other component of the state — `results` included — is untouched; on
the plain submit-fire-fail trace the results are still the cleared
`undefined` of the submission. -/
theorem C7_index_failure (s : SearchState) (aid : Nat) (trm : List String)
    (hT : findTask s.tasks aid = some (Phase.awaitingSearch trm)) :
    step s (Event.searchFail aid) = some { s with tasks := removeTask s.tasks aid } ∧
    (∀ (q : String) (s2 : SearchState),
      run init [Event.submit q 0, Event.fire, Event.searchFail 1] = some s2 →
      s2.results = none) := by
  refine ⟨step_searchFail hT, ?_⟩
  intro q s2 hrun
  have he : run init [Event.submit q 0, Event.fire, Event.searchFail 1] =
      some { query := q
             results := none
             debounce := some 1
             timer := none
             tasks := []
             nextId := 2
             now := 250 } := rfl
  rw [he] at hrun
  injection hrun with hrun
  rw [← hrun]

/-- C7 witness: the failure step on a concrete searching state. -/
theorem C7_index_failure_witness :
    step sSearching (Event.searchFail 1) =
      some { sSearching with tasks := removeTask sSearching.tasks 1 } :=
  (C7_index_failure sSearching 1 [] rfl).1

/-- C8, as stated, is FALSE in its invariant half: `results` is not
`undefined` whenever an attempt is pending.  After `staleTrace` plus the
stale commit of attempt 1, attempt 2 is still pending (its timeout is
scheduled) while `results` already holds a FulfilledResult. -/
theorem C8_counterexample :
    ¬ ((∀ (s : SearchState) (q : String) (t : Nat) (s1 : SearchState),
          step s (Event.submit q t) = some s1 → s1.results = none) ∧
       (∀ (tr : List Event) (s : SearchState),
          run init tr = some s → (s.timer ≠ none ∨ s.tasks ≠ []) →
          s.results = none)) := by
  rintro ⟨_, hinv⟩
  have h1 : run init (staleTrace ++ [Event.summariesOk 1 [some artA]]) =
      some sStaleDone := rfl
  have h2 := hinv _ _ h1 (Or.inl (by decide))
  exact absurd h2 (by decide)

/-- C8 amended: every submission clears `results` to `undefined`
immediately, before any timer or network suspension (the submit step
itself produces `results = none`), and `results` holds a FulfilledResult
only through a fan-out completion committing one — but a pending attempt
does not guarantee `results` is still cleared, because an earlier
superseded attempt may commit behind it (see the counterexample). -/
theorem C8_clear_on_submit :
    (∀ (s : SearchState) (q : String) (t : Nat) (s1 : SearchState),
      step s (Event.submit q t) = some s1 → s1.results = none) ∧
    (∀ (s s1 : SearchState) (e : Event), step s e = some s1 →
      s1.results ≠ s.results →
      ((∃ q t, e = Event.submit q t) ∧ s1.results = none) ∨
      (∃ aid outcomes, e = Event.summariesOk aid outcomes ∧
        ∃ r, s1.results = some r)) := by
  constructor
  · intro s q t s1 hstep
    exact (step_submit_inv hstep).2
  · intro s s1 e hstep hne
    cases e with
    | submit q t => exact Or.inl ⟨⟨q, t, rfl⟩, (step_submit_inv hstep).2⟩
    | fire =>
      refine absurd ?_ hne
      simp only [step] at hstep
      split at hstep
      next tm htm =>
        split at hstep
        · injection hstep with h
          subst h
          rfl
        · exact absurd hstep (by simp)
      next => exact absurd hstep (by simp)
    | searchOk aid titles more =>
      refine absurd ?_ hne
      simp only [step] at hstep
      split at hstep
      next trm hph =>
        split at hstep <;> (injection hstep with h; subst h; rfl)
      next => exact absurd hstep (by simp)
    | searchFail aid =>
      refine absurd ?_ hne
      simp only [step] at hstep
      split at hstep
      next trm hph =>
        injection hstep with h
        subst h
        rfl
      next => exact absurd hstep (by simp)
    | summariesOk aid outcomes =>
      refine Or.inr ⟨aid, outcomes, rfl, ?_⟩
      simp only [step] at hstep
      split at hstep
      next titles more hph =>
        split at hstep
        · injection hstep with h
          subst h
          exact ⟨classify outcomes more, rfl⟩
        · exact absurd hstep (by simp)
      next => exact absurd hstep (by simp)

/-- C8 witness: the first submission from the mount state clears the
results. -/
theorem C8_clear_on_submit_witness : sAfterSubmit.results = none :=
  C8_clear_on_submit.1 init ("a") 0 sAfterSubmit rfl

/-- C9: an empty token set is not short-circuited: line 33 has no guard,
so the timeout is scheduled and fired as usual and the index client is
invoked with the empty required-term set. -/
theorem C9_empty_query_still_fires :
    tokenize ("   ") = [] ∧ tokenize ("") = [] ∧
    ∀ q : String, run init [Event.submit q 0, Event.fire] =
      some { query := q
             results := none
             debounce := some 1
             timer := none
             tasks := [⟨1, Phase.awaitingSearch (tokenize q)⟩]
             nextId := 2
             now := 250 } :=
  ⟨by decide, by decide, fun q => rfl⟩

/-- C10: an attempt found superseded when its index query returns (line 38)
stops at once: the step only removes the attempt — `results` and all other
state are untouched — and no suspension on the summary fan-out is ever
created for it, so it issues no resolutions and performs no
classification. -/
theorem C10_superseded_discard (s : SearchState) (aid : Nat)
    (trm titles : List String) (more : Bool)
    (hT : findTask s.tasks aid = some (Phase.awaitingSearch trm))
    (hSup : s.debounce ≠ some aid) :
    step s (Event.searchOk aid titles more) =
      some { s with tasks := removeTask s.tasks aid } ∧
    findTask (removeTask s.tasks aid) aid = none :=
  ⟨step_searchOk_superseded hT hSup,
   findTask_eq_none (not_mem_removeTask s.tasks aid)⟩

/-- C10 witness: the superseded search return on a concrete state. -/
theorem C10_superseded_discard_witness :
    step sSupersededEarly (Event.searchOk 1 [("T")] false) =
      some { sSupersededEarly with tasks := removeTask sSupersededEarly.tasks 1 } ∧
    findTask (removeTask sSupersededEarly.tasks 1) 1 = none :=
  C10_superseded_discard sSupersededEarly 1 [("a")] [("T")] false rfl (by decide)

end Edgesearch
